import Mathlib

/-!
Verification development for the batch thumbnail generator (src/main.py).

The Python program is shallowly embedded below.  Strings are handled at the
level of their character lists (Lean `String` in Lean 4.14 is a structure
around `List Char`), raster images are modelled as functions from pixel
coordinates to RGBA pixels with natural-number channels, Python's arbitrary
precision integers become `Int`, and the float slider ratio
`line_spacing_factor` becomes an exact rational.  Library raster primitives
(LANCZOS fit, resize, glyph rasterization, text measurement) are uninterpreted
parameters bundled in `RasterOps`; the pixel-exact parts the claims depend on
(alpha scaling and `Image.alpha_composite`) are embedded concretely.
-/

/-! ### String primitives -/

/-- Characters accumulated into a pending word are flushed as one word;
an empty accumulator produces no word.  The accumulator is kept reversed. -/
def flushWord (cur : List Char) : List (List Char) :=
  if cur = [] then [] else [cur.reverse]

/-- Split a character list on runs of whitespace, dropping empty pieces;
`cur` is the (reversed) word accumulated so far.  This is the semantics of
Python's `str.split()` with no arguments, used by `wrap_text` (line 354). -/
def splitWsAux : List Char → List Char → List (List Char)
  | [], cur => flushWord cur
  | c :: cs, cur =>
    if c.isWhitespace then flushWord cur ++ splitWsAux cs []
    else splitWsAux cs (c :: cur)

/-- Python `text.split()`: whitespace-separated words of a string. -/
def pySplit (s : String) : List String :=
  (splitWsAux s.toList []).map fun w => ⟨w⟩

/-- Python `' '.join(parts)` (src/main.py lines 361, 369, 376). -/
def joinSp : List String → String
  | [] => ""
  | [x] => x
  | x :: y :: t => x ++ " " ++ joinSp (y :: t)

/-- Python `'\n'.join(lines)`, the re-joining used when wrapped output is fed
back into the wrapper. -/
def joinNl : List String → String
  | [] => ""
  | [x] => x
  | x :: y :: t => x ++ "\n" ++ joinNl (y :: t)

/-- Python `s.strip()`: remove leading and trailing whitespace
(src/main.py line 411). -/
def pyStrip (s : String) : String :=
  ⟨((s.toList.dropWhile Char.isWhitespace).reverse.dropWhile Char.isWhitespace).reverse⟩

/-- Replace every occurrence of the character `'#'` by `rep`. -/
def replaceHash (rep : List Char) : List Char → List Char
  | [] => []
  | c :: cs => (if c = '#' then rep else [c]) ++ replaceHash rep cs

/-- Python `title_template.replace('#', str(number))` (src/main.py line 408):
every occurrence of the placeholder token is replaced by the decimal
representation of the sequence number. -/
def substitute (template : String) (number : Nat) : String :=
  ⟨replaceHash (toString number).toList template.toList⟩

/-- A word produced by `pySplit`: non-empty and free of whitespace. -/
def goodWord (w : String) : Prop :=
  w.toList ≠ [] ∧ ∀ c ∈ w.toList, c.isWhitespace = false

/-- Whitespace-normalized text: single spaces between words, none at the
ends.  Equivalently, the text is the space-join of its own words. -/
def wsNormalized (s : String) : Prop := s = joinSp (pySplit s)

/-! ### Word wrap (src/main.py lines 352-378) -/

/-- The loop of `ThumbnailGenerator.wrap_text`: `current` is `current_line`,
the returned list is `lines` in emission order.  `measure` stands for
`draw.textbbox((0,0), s, font=font)` width (`right - left`) for the font in
use.  A tentative line that measures strictly wider than `max_width` while
the current line is non-empty commits the current line and restarts from the
new word; otherwise the tentative line is accepted. -/
def wrapAux (measure : String → Int) (max_width : Int) :
    List String → List String → List String
  | [], current => if current = [] then [] else [joinSp current]
  | word :: words, current =>
    let test_line := current ++ [word]
    let test_text := joinSp test_line
    if max_width < measure test_text ∧ current ≠ [] then
      joinSp current :: wrapAux measure max_width words [word]
    else
      wrapAux measure max_width words test_line

/-- `ThumbnailGenerator.wrap_text(text, font, max_width, draw)`. -/
def wrap_text (measure : String → Int) (text : String) (max_width : Int) :
    List String :=
  wrapAux measure max_width (pySplit text) []

/-! ### Text layout (src/main.py lines 438-456) -/

/-- Python `int()` on an exact rational: truncation toward zero. -/
def pyInt (q : ℚ) : ℤ := if 0 ≤ q then ⌊q⌋ else ⌈q⌉

/-- `line_spacing = int(font_size * self.line_spacing_factor)` (line 439). -/
def line_spacing (font_size : ℕ) (ratio : ℚ) : ℤ :=
  pyInt ((font_size : ℚ) * ratio)

/-- The per-line vertical pitch: each line advances `font_size + line_spacing`
pixels (line 456). -/
def pitch (font_size : ℕ) (ratio : ℚ) : ℤ :=
  (font_size : ℤ) + line_spacing font_size ratio

/-- `text_height = len(lines) * (font_size + line_spacing) - line_spacing`
(line 440): spacing only between lines, not after the last. -/
def text_height (n : ℕ) (font_size : ℕ) (ratio : ℚ) : ℤ :=
  (n : ℤ) * ((font_size : ℤ) + line_spacing font_size ratio)
    - line_spacing font_size ratio

/-- `y_position = (height - text_height) // 2` (line 443); Python `//` is
floor division, `Int.fdiv`. -/
def y_start (height : ℤ) (n : ℕ) (font_size : ℕ) (ratio : ℚ) : ℤ :=
  Int.fdiv (height - text_height n font_size ratio) 2

/-- `x_position = (width - line_width) // 2` (line 450), computed per line. -/
def x_position (width line_width : ℤ) : ℤ :=
  Int.fdiv (width - line_width) 2

/-- The drawing loop of lines 446-456: each line is paired with its own
horizontal start and the running vertical position, which then advances by
`font_size + line_spacing`. -/
def drawLines (measure : String → Int) (width : ℤ) (font_size : ℕ)
    (ratio : ℚ) : List String → ℤ → List (String × ℤ × ℤ)
  | [], _ => []
  | l :: ls, y =>
    (l, x_position width (measure l), y) ::
      drawLines measure width font_size ratio ls (y + pitch font_size ratio)

/-- Placement of all wrapped lines on a `width × height` canvas. -/
def layout (measure : String → Int) (width height : ℤ) (font_size : ℕ)
    (ratio : ℚ) (lines : List String) : List (String × ℤ × ℤ) :=
  drawLines measure width font_size ratio lines
    (y_start height lines.length font_size ratio)

/-! ### Pixels and compositing (src/main.py lines 380-404) -/

/-- An RGBA pixel with 8-bit channels modelled as naturals. -/
structure Pixel where
  r : ℕ
  g : ℕ
  b : ℕ
  a : ℕ
deriving DecidableEq, Repr

/-- An RGB triple as delivered by the Qt color picker. -/
structure RGB where
  r : ℕ
  g : ℕ
  b : ℕ
deriving DecidableEq, Repr

/-- A raster is a function from coordinates to pixels; the program only ever
observes the `width × height` window of it. -/
def Canvas : Type := ℕ → ℕ → Pixel

/-- Per-pixel `Image.alpha_composite(dst, src)` semantics: a fully
transparent source pixel leaves the destination pixel unchanged; otherwise
standard "over" blending of the straight-alpha channels with rounding. -/
def compositePixel (dst src : Pixel) : Pixel :=
  if src.a = 0 then dst
  else
    let outA255 := src.a * 255 + dst.a * (255 - src.a)
    let blend := fun (sc dc : ℕ) =>
      (sc * src.a * 255 + dc * dst.a * (255 - src.a) + outA255 / 2) / outA255
    ⟨blend src.r dst.r, blend src.g dst.g, blend src.b dst.b,
      (outA255 + 127) / 255⟩

/-- Uniform alpha scaling by `opacity_pct / 100`, the effect of
`ImageEnhance.Brightness(pattern.split()[3]).enhance(pct / 100)` followed by
`Image.merge` (lines 398-401); the float blend is modelled as the exact
rational product truncated to the channel range. -/
def scaleAlphaPixel (opacity_pct : ℕ) (p : Pixel) : Pixel :=
  ⟨p.r, p.g, p.b, p.a * opacity_pct / 100⟩

/-! ### The generator (src/main.py lines 380-458) -/

/-- External raster primitives of the imaging library, uninterpreted: the
aspect-preserving fit-and-crop of `ImageOps.fit`, the plain stretch of
`Image.resize`, the glyph rasterizer `draw.text`, and the text measurement
`draw.textbbox` width for the font selected in the configuration. -/
structure RasterOps where
  fit : Canvas → ℕ → ℕ → Canvas
  resize : Canvas → ℕ → ℕ → Canvas
  drawText : Canvas → String → ℤ → ℤ → Pixel → Canvas
  measure : String → ℤ

/-- The configuration state read by `generate_thumbnail`: the UI fields of
`ThumbnailGenerator` that the render depends on. -/
structure Config where
  course_input : String
  title_template : String
  background_image : Option Canvas
  background_color : RGB
  current_pattern : Option Canvas
  pattern_opacity : ℕ
  font_size : ℕ
  text_margins : ℕ
  line_spacing_factor : ℚ
  text_color : RGB

/-- Lines 383-390: fit-and-crop the background image to the canvas, or fill
with the flat background color at full opacity. -/
def build_base (ops : RasterOps) (cfg : Config) (width height : ℕ) : Canvas :=
  match cfg.background_image with
  | some bg => ops.fit bg width height
  | none => fun _ _ =>
      ⟨cfg.background_color.r, cfg.background_color.g,
        cfg.background_color.b, 255⟩

/-- Lines 392-404: resize the selected pattern to the canvas, scale its alpha
when the opacity is below 100, and alpha-composite it over the base; skipped
entirely when no pattern is selected. -/
def apply_overlay (ops : RasterOps) (cfg : Config) (width height : ℕ)
    (img : Canvas) : Canvas :=
  match cfg.current_pattern with
  | none => img
  | some pat =>
    let pattern := ops.resize pat width height
    let pattern :=
      if cfg.pattern_opacity < 100 then
        fun x y => scaleAlphaPixel cfg.pattern_opacity (pattern x y)
      else pattern
    fun x y => compositePixel (img x y) (pattern x y)

/-- Lines 414-417: the filename title carries the course name (already
stripped) in front of the display title when it is non-empty. -/
def filename_title (course_name title : String) : String :=
  if course_name = "" then title else course_name ++ " - " ++ title

/-- Lines 432-456: wrap the display title to `width - 2 * margins`, place the
lines, and draw each at its computed position in the flat text color. -/
def draw_title (ops : RasterOps) (cfg : Config) (display_title : String)
    (width height : ℕ) (img : Canvas) : Canvas :=
  let max_text_width : ℤ := (width : ℤ) - (cfg.text_margins * 2 : ℕ)
  let lines := wrap_text ops.measure display_title max_text_width
  let placed := layout ops.measure (width : ℤ) (height : ℤ) cfg.font_size
    cfg.line_spacing_factor lines
  placed.foldl
    (fun c e => ops.drawText c e.1 e.2.1 e.2.2
      ⟨cfg.text_color.r, cfg.text_color.g, cfg.text_color.b, 255⟩)
    img

/-- `ThumbnailGenerator.generate_thumbnail(number, width, height)`
(lines 380-458): returns the rendered canvas and the filename title. -/
def generate_thumbnail (ops : RasterOps) (cfg : Config) (number : ℕ)
    (width height : ℕ) : Canvas × String :=
  let img := build_base ops cfg width height
  let img := apply_overlay ops cfg width height img
  let title := substitute cfg.title_template number
  let course_name := pyStrip cfg.course_input
  let display_title := title
  let fname := filename_title course_name title
  let img := draw_title ops cfg display_title width height img
  (img, fname)

/-- Line 511: the saved file is named `f"{title}_Thumbnail.png"` from the
title returned by `generate_thumbnail`. -/
def save_filename (title : String) : String := title ++ "_Thumbnail.png"

/-! ### Font resolution (src/main.py lines 89-116) -/

/-- A PIL font handle: either a truetype font rasterized from a path at a
pixel size, or the built-in bitmap font of `ImageFont.load_default()`. -/
inductive PilFont where
  | truetype (path : String) (size : ℕ)
  | defaultFont
deriving DecidableEq, Repr

/-- The path handed to `ImageFont.truetype`: the registered custom font's
file path when the name is a custom font, otherwise the name itself tried as
a system font (lines 99-106). -/
def resolvedFontPath (custom_fonts : List (String × String))
    (font_name : String) : String :=
  match custom_fonts.lookup font_name with
  | some p => p
  | none => font_name

/-- `ThumbnailGenerator.get_pil_font(font_name, size)`: consult the cache,
otherwise try to rasterize the resolved path; any load failure (modelled by
`canLoad` returning `false`) falls back to the built-in default font, which
is cached and returned — the function is total, so resolution never raises
and never aborts the render. -/
def get_pil_font (canLoad : String → ℕ → Bool)
    (custom_fonts : List (String × String))
    (pil_fonts : List (String × PilFont)) (font_name : String) (size : ℕ) :
    PilFont × List (String × PilFont) :=
  let key := font_name ++ "_" ++ toString size
  match pil_fonts.lookup key with
  | some f => (f, pil_fonts)
  | none =>
    let path := resolvedFontPath custom_fonts font_name
    if canLoad path size then
      (PilFont.truetype path size, (key, PilFont.truetype path size) :: pil_fonts)
    else
      (PilFont.defaultFont, (key, PilFont.defaultFont) :: pil_fonts)

/-! ### The batch save loop (src/main.py lines 479-521) -/

/-- How `save_thumbnails` ends: the success message
`f"{count} thumbnails saved successfully!"` with the count it displays, or
the catch-all `Save Error` box after a write failure (no count shown). -/
inductive BatchOutcome where
  | success (reported : ℕ)
  | error
deriving DecidableEq, Repr

/-- Observable behaviour of one run of the save loop: how many files were
actually written, the successive values passed to `progress.setValue`, and
the final outcome. -/
structure BatchRun where
  written : ℕ
  progress : List ℕ
  outcome : BatchOutcome
deriving DecidableEq, Repr

/-- The `for i in range(count)` loop of lines 498-518, driven by the fuel
`remaining = count - i`.  Before each iteration the cancellation flag is
consulted; on cancellation the loop breaks, and — as in the source — still
executes `progress.setValue(count)` and shows the success message claiming
`count` files were saved.  A failing `img.save` raises into the outer
`except`, aborting the batch with an error box. -/
def saveLoop (wasCanceled saveOk : ℕ → Bool) (count : ℕ) :
    ℕ → ℕ → ℕ → List ℕ → BatchRun
  | 0, _, written, prog =>
    ⟨written, prog ++ [count], BatchOutcome.success count⟩
  | remaining + 1, i, written, prog =>
    if wasCanceled i then
      ⟨written, prog ++ [count], BatchOutcome.success count⟩
    else if saveOk i then
      saveLoop wasCanceled saveOk count remaining (i + 1) (written + 1)
        (prog ++ [i])
    else
      ⟨written, prog ++ [i], BatchOutcome.error⟩

/-- `ThumbnailGenerator.save_thumbnails`, abstracted over the cancellation
flag and the success of each write. -/
def save_thumbnails (wasCanceled saveOk : ℕ → Bool) (count : ℕ) : BatchRun :=
  saveLoop wasCanceled saveOk count count 0 0 []

/-! ### Sample collaborators for concrete scenarios -/

/-- Raster primitives with trivial geometry and character-count measurement,
used to instantiate scenario instances. -/
def sampleOps : RasterOps where
  fit := fun c _ _ => c
  resize := fun c _ _ => c
  drawText := fun c _ _ _ _ => c
  measure := fun s => (s.length : ℤ)

/-- The configuration defaults of the source UI (orange background, white
text, 60 px font, 100 px margins, 30 percent line spacing). -/
def sampleConfig : Config where
  course_input := ""
  title_template := "Week # Overview"
  background_image := none
  background_color := ⟨215, 63, 9⟩
  current_pattern := none
  pattern_opacity := 100
  font_size := 60
  text_margins := 100
  line_spacing_factor := 3 / 10
  text_color := ⟨255, 255, 255⟩

/-! ### Helper lemmas: strings, splitting and joining -/

theorem toList_mk (l : List Char) : (⟨l⟩ : String).toList = l := rfl

theorem mk_toList (s : String) : (⟨s.toList⟩ : String) = s := by cases s; rfl

theorem toList_append (a b : String) :
    (a ++ b).toList = a.toList ++ b.toList := by
  cases a; cases b; rfl

theorem joinSp_singleton (x : String) : joinSp [x] = x := rfl

theorem joinSp_cons (x : String) (ys : List String) (h : ys ≠ []) :
    joinSp (x :: ys) = x ++ " " ++ joinSp ys := by
  cases ys with
  | nil => exact absurd rfl h
  | cons y t => rfl

theorem joinSp_append_singleton (xs : List String) (w : String) (h : xs ≠ []) :
    joinSp (xs ++ [w]) = joinSp xs ++ " " ++ w := by
  induction xs with
  | nil => exact absurd rfl h
  | cons x t ih =>
    cases t with
    | nil => rfl
    | cons y t' =>
      rw [List.cons_append, joinSp_cons x ((y :: t') ++ [w]) (by simp),
        ih (by simp), joinSp_cons x (y :: t') (by simp)]
      simp [String.append_assoc]

theorem mem_flushWord {w cur : List Char} (h : w ∈ flushWord cur) :
    w = cur.reverse ∧ cur ≠ [] := by
  by_cases hc : cur = []
  · simp [flushWord, hc] at h
  · simp [flushWord, hc] at h
    exact ⟨h, hc⟩

theorem splitWsAux_append_ws (c : Char) (hc : c.isWhitespace = true) :
    ∀ (a b cur : List Char),
      splitWsAux (a ++ c :: b) cur = splitWsAux a cur ++ splitWsAux b []
  | [], b, cur => by simp [splitWsAux, hc]
  | d :: a, b, cur => by
    by_cases hd : d.isWhitespace
    · simp [splitWsAux, hd, splitWsAux_append_ws c hc a b []]
    · simp [splitWsAux, hd, splitWsAux_append_ws c hc a b (d :: cur)]

theorem splitWsAux_no_ws :
    ∀ (w cur : List Char), (∀ c ∈ w, c.isWhitespace = false) →
      splitWsAux w cur = flushWord (w.reverse ++ cur)
  | [], cur, _ => by simp [splitWsAux]
  | c :: cs, cur, h => by
    have hc : c.isWhitespace = false := h c (by simp)
    have hrest : ∀ d ∈ cs, d.isWhitespace = false :=
      fun d hd => h d (by simp [hd])
    simp [splitWsAux, hc, splitWsAux_no_ws cs (c :: cur) hrest,
      List.append_assoc]

theorem splitWsAux_good :
    ∀ (cs cur : List Char), (∀ c ∈ cur, c.isWhitespace = false) →
      ∀ w ∈ splitWsAux cs cur, w ≠ [] ∧ ∀ c ∈ w, c.isWhitespace = false
  | [], cur, hcur, w, hw => by
    obtain ⟨rfl, hne⟩ := mem_flushWord hw
    refine ⟨by simpa using hne, ?_⟩
    intro c hc
    exact hcur c (List.mem_reverse.mp hc)
  | c :: cs, cur, hcur, w, hw => by
    by_cases hc : c.isWhitespace
    · rw [splitWsAux, if_pos hc] at hw
      rcases List.mem_append.mp hw with hw | hw
      · obtain ⟨rfl, hne⟩ := mem_flushWord hw
        refine ⟨by simpa using hne, ?_⟩
        intro d hd
        exact hcur d (List.mem_reverse.mp hd)
      · exact splitWsAux_good cs [] (by simp) w hw
    · rw [splitWsAux, if_neg hc] at hw
      refine splitWsAux_good cs (c :: cur) ?_ w hw
      intro d hd
      rcases List.mem_cons.mp hd with rfl | hd
      · simpa using hc
      · exact hcur d hd

theorem pySplit_good {s w : String} (h : w ∈ pySplit s) : goodWord w := by
  unfold pySplit at h
  obtain ⟨wl, hwl, rfl⟩ := List.mem_map.mp h
  have hg := splitWsAux_good s.toList [] (by simp) wl hwl
  exact ⟨by simpa [toList_mk] using hg.1, by simpa [toList_mk] using hg.2⟩

theorem pySplit_single {w : String} (h : goodWord w) : pySplit w = [w] := by
  have hne : w.toList ≠ [] := h.1
  unfold pySplit
  rw [splitWsAux_no_ws w.toList [] h.2,
    show w.toList.reverse ++ [] = w.toList.reverse from List.append_nil _,
    show flushWord w.toList.reverse = [w.toList.reverse.reverse] from by
      unfold flushWord
      rw [if_neg (by simpa using hne)],
    List.reverse_reverse]
  simp [mk_toList]

theorem pySplit_append_sep (c : Char) (hc : c.isWhitespace = true)
    (sep : String) (hsep : sep.toList = [c]) (x s : String) :
    pySplit (x ++ sep ++ s) = pySplit x ++ pySplit s := by
  unfold pySplit
  rw [show (x ++ sep ++ s).toList = x.toList ++ c :: s.toList from by
      rw [toList_append, toList_append, hsep]; simp,
    splitWsAux_append_ws c hc x.toList s.toList [], List.map_append]

theorem pySplit_joinSp :
    ∀ (g : List String), g ≠ [] → (∀ w ∈ g, goodWord w) →
      pySplit (joinSp g) = g
  | [], h, _ => absurd rfl h
  | [x], _, hg => by
    rw [joinSp_singleton]
    exact pySplit_single (hg x (by simp))
  | x :: y :: t, _, hg => by
    rw [joinSp_cons x (y :: t) (by simp), pySplit_append_sep ' ' rfl " " rfl,
      pySplit_single (hg x (by simp)),
      pySplit_joinSp (y :: t) (by simp) (fun w hw => hg w (by simp [hw]))]
    rfl

theorem pySplit_joinNl :
    ∀ (ls : List String), pySplit (joinNl ls) = (ls.map pySplit).flatten
  | [] => by simp [joinNl, pySplit, splitWsAux, flushWord]
  | [x] => by simp [joinNl]
  | x :: y :: t => by
    rw [show joinNl (x :: y :: t) = x ++ "\n" ++ joinNl (y :: t) from rfl,
      pySplit_append_sep '\n' rfl "\n" rfl, pySplit_joinNl (y :: t)]
    simp

/-! ### Helper lemmas: the wrap loop -/

theorem wrapAux_nil (measure : String → Int) (max_width : Int)
    (current : List String) :
    wrapAux measure max_width [] current
      = if current = [] then [] else [joinSp current] := rfl

theorem wrapAux_cons (measure : String → Int) (max_width : Int)
    (word : String) (words current : List String) :
    wrapAux measure max_width (word :: words) current
      = if max_width < measure (joinSp (current ++ [word])) ∧ current ≠ [] then
          joinSp current :: wrapAux measure max_width words [word]
        else wrapAux measure max_width words (current ++ [word]) := rfl

theorem wrapAux_bound (measure : String → Int) (max_width : Int) :
    ∀ (words current : List String),
      (current = [] ∨ measure (joinSp current) ≤ max_width ∨
        ∃ u, current = [u]) →
      ∀ line ∈ wrapAux measure max_width words current,
        measure line ≤ max_width ∨ ∃ u, line = u ∧ (u ∈ words ∨ u ∈ current)
  | [], current, hinv, line, hline => by
    rw [wrapAux_nil] at hline
    by_cases hc : current = []
    · rw [if_pos hc] at hline
      simp at hline
    · rw [if_neg hc] at hline
      have hl : line = joinSp current := List.mem_singleton.mp hline
      subst hl
      rcases hinv with h | hle | ⟨u, rfl⟩
      · exact absurd h hc
      · exact Or.inl hle
      · exact Or.inr ⟨u, joinSp_singleton u, Or.inr (by simp)⟩
  | word :: words, current, hinv, line, hline => by
    rw [wrapAux_cons] at hline
    by_cases hg : max_width < measure (joinSp (current ++ [word])) ∧
        current ≠ []
    · rw [if_pos hg] at hline
      rcases List.mem_cons.mp hline with rfl | hline
      · rcases hinv with h | hle | ⟨u, rfl⟩
        · exact absurd h hg.2
        · exact Or.inl hle
        · exact Or.inr ⟨u, joinSp_singleton u, Or.inr (by simp)⟩
      · rcases wrapAux_bound measure max_width words [word]
            (Or.inr (Or.inr ⟨word, rfl⟩)) line hline with h | ⟨u, hlu, hu⟩
        · exact Or.inl h
        · refine Or.inr ⟨u, hlu, Or.inl ?_⟩
          rcases hu with hu | hu
          · simp [hu]
          · simp at hu
            simp [hu]
    · rw [if_neg hg] at hline
      have hinv' : current ++ [word] = [] ∨
          measure (joinSp (current ++ [word])) ≤ max_width ∨
          ∃ u, current ++ [word] = [u] := by
        rcases not_and_or.mp hg with h | h
        · exact Or.inr (Or.inl (le_of_not_lt h))
        · have hc : current = [] := not_not.mp h
          exact Or.inr (Or.inr ⟨word, by rw [hc]; rfl⟩)
      rcases wrapAux_bound measure max_width words (current ++ [word]) hinv'
          line hline with h | ⟨u, hlu, hu⟩
      · exact Or.inl h
      · refine Or.inr ⟨u, hlu, ?_⟩
        rcases hu with hu | hu
        · exact Or.inl (by simp [hu])
        · rcases List.mem_append.mp hu with hu | hu
          · exact Or.inr hu
          · simp at hu
            exact Or.inl (by simp [hu])

theorem wrapAux_overwide_start (measure : String → Int) (max_width : Int)
    (hmonoL : ∀ a b : String, measure a ≤ measure (a ++ " " ++ b)) :
    ∀ (words : List String) (w : String), max_width < measure w →
      w ∈ wrapAux measure max_width words [w]
  | [], w, _ => by simp [wrapAux_nil, joinSp_singleton]
  | u :: words, w, hw => by
    rw [wrapAux_cons]
    have hlt : max_width < measure (joinSp ([w] ++ [u])) := by
      rw [show ([w] ++ [u] : List String) = [w, u] from rfl,
        joinSp_cons w [u] (by simp), joinSp_singleton]
      exact lt_of_lt_of_le hw (hmonoL w u)
    rw [if_pos ⟨hlt, by simp⟩, joinSp_singleton]
    exact List.mem_cons_self w _

theorem wrapAux_overwide (measure : String → Int) (max_width : Int)
    (hmonoL : ∀ a b : String, measure a ≤ measure (a ++ " " ++ b))
    (hmonoR : ∀ a b : String, measure b ≤ measure (a ++ " " ++ b)) :
    ∀ (words current : List String) (w : String), w ∈ words →
      max_width < measure w → w ∈ wrapAux measure max_width words current
  | [], _, w, hw, _ => by simp at hw
  | u :: words, current, w, hw, hlt => by
    rw [wrapAux_cons]
    rcases List.mem_cons.mp hw with rfl | hw
    · by_cases hc : current = []
      · subst hc
        rw [if_neg (by simp), List.nil_append]
        exact wrapAux_overwide_start measure max_width hmonoL words w hlt
      · have hlt2 : max_width < measure (joinSp (current ++ [w])) := by
          rw [joinSp_append_singleton current w hc]
          exact lt_of_lt_of_le hlt (hmonoR (joinSp current) w)
        rw [if_pos ⟨hlt2, hc⟩]
        exact List.mem_cons_of_mem _
          (wrapAux_overwide_start measure max_width hmonoL words w hlt)
    · by_cases hg : max_width < measure (joinSp (current ++ [u])) ∧
          current ≠ []
      · rw [if_pos hg]
        exact List.mem_cons_of_mem _
          (wrapAux_overwide measure max_width hmonoL hmonoR words [u] w hw hlt)
      · rw [if_neg hg]
        exact wrapAux_overwide measure max_width hmonoL hmonoR words
          (current ++ [u]) w hw hlt

theorem wrapAux_words (measure : String → Int) (max_width : Int) :
    ∀ (words current : List String),
      (∀ u ∈ words, goodWord u) → (∀ u ∈ current, goodWord u) →
      ((wrapAux measure max_width words current).map pySplit).flatten
        = current ++ words
  | [], current, _, hcur => by
    rw [wrapAux_nil]
    by_cases hc : current = []
    · subst hc
      simp
    · rw [if_neg hc]
      simp [pySplit_joinSp current hc hcur]
  | word :: words, current, hw, hcur => by
    rw [wrapAux_cons]
    have hword : goodWord word := hw word (by simp)
    have hws : ∀ u ∈ words, goodWord u := fun u hu => hw u (by simp [hu])
    by_cases hg : max_width < measure (joinSp (current ++ [word])) ∧
        current ≠ []
    · rw [if_pos hg]
      simp only [List.map_cons, List.flatten_cons]
      rw [pySplit_joinSp current hg.2 hcur,
        wrapAux_words measure max_width words [word] hws
          (by intro u hu; rw [List.mem_singleton.mp hu]; exact hword)]
      simp
    · rw [if_neg hg]
      have hcur' : ∀ u ∈ current ++ [word], goodWord u := by
        intro u hu
        rcases List.mem_append.mp hu with hu | hu
        · exact hcur u hu
        · rw [List.mem_singleton.mp hu]
          exact hword
      rw [wrapAux_words measure max_width words (current ++ [word]) hws hcur']
      simp

theorem measure_joinSp_mono (measure : String → Int)
    (hmonoL : ∀ a b : String, measure a ≤ measure (a ++ " " ++ b)) :
    ∀ (ws a : List String), a ≠ [] →
      measure (joinSp a) ≤ measure (joinSp (a ++ ws))
  | [], a, _ => by simp
  | u :: ws, a, ha => by
    have step : measure (joinSp a) ≤ measure (joinSp (a ++ [u])) := by
      rw [joinSp_append_singleton a u ha]
      exact hmonoL (joinSp a) u
    have rest := measure_joinSp_mono measure hmonoL ws (a ++ [u]) (by simp)
    refine le_trans step (le_trans rest (le_of_eq ?_))
    simp [List.append_assoc]

theorem wrapAux_single_line (measure : String → Int) (max_width : Int)
    (hmonoL : ∀ a b : String, measure a ≤ measure (a ++ " " ++ b)) :
    ∀ (words current : List String), current ≠ [] →
      measure (joinSp (current ++ words)) ≤ max_width →
      wrapAux measure max_width words current = [joinSp (current ++ words)]
  | [], current, hc, _ => by rw [wrapAux_nil, if_neg hc, List.append_nil]
  | word :: words, current, hc, hle => by
    rw [wrapAux_cons]
    have hpre : measure (joinSp (current ++ [word]))
        ≤ measure (joinSp (current ++ word :: words)) := by
      have := measure_joinSp_mono measure hmonoL words (current ++ [word])
        (by simp)
      simpa [List.append_assoc] using this
    have h1 : measure (joinSp (current ++ [word])) ≤ max_width :=
      le_trans hpre hle
    rw [if_neg (fun h => absurd h.1 (not_lt.mpr h1)),
      wrapAux_single_line measure max_width hmonoL words (current ++ [word])
        (by simp) (by simpa [List.append_assoc] using hle)]
    simp [List.append_assoc]

/-! ### Helper lemmas: layout and compositing -/

theorem drawLines_getElem (measure : String → Int) (width : ℤ)
    (font_size : ℕ) (ratio : ℚ) :
    ∀ (lines : List String) (y0 : ℤ) (i : ℕ) (l : String) (x y : ℤ),
      (drawLines measure width font_size ratio lines y0)[i]? = some (l, x, y) →
      y = y0 + (i : ℤ) * pitch font_size ratio
        ∧ x = x_position width (measure l)
  | [], y0, i, l, x, y, h => by simp [drawLines] at h
  | ln :: ls, y0, 0, l, x, y, h => by
    simp only [drawLines, List.getElem?_cons_zero, Option.some.injEq,
      Prod.mk.injEq] at h
    obtain ⟨h1, h2, h3⟩ := h
    subst h1
    exact ⟨by rw [← h3]; ring, h2.symm⟩
  | ln :: ls, y0, i + 1, l, x, y, h => by
    simp only [drawLines, List.getElem?_cons_succ] at h
    have ih := drawLines_getElem measure width font_size ratio ls
      (y0 + pitch font_size ratio) i l x y h
    refine ⟨?_, ih.2⟩
    rw [ih.1]
    push_cast
    ring

theorem mem_drawLines (measure : String → Int) (width : ℤ) (font_size : ℕ)
    (ratio : ℚ) :
    ∀ (lines : List String) (y0 : ℤ) (l : String) (x y : ℤ),
      (l, x, y) ∈ drawLines measure width font_size ratio lines y0 →
      x = x_position width (measure l)
  | [], y0, l, x, y, h => by simp [drawLines] at h
  | ln :: ls, y0, l, x, y, h => by
    rcases List.mem_cons.mp h with h | h
    · injection h with h1 h2
      injection h2 with h2 h3
      subst h1
      exact h2
    · exact mem_drawLines measure width font_size ratio ls _ l x y h

theorem compositePixel_transparent (dst : Pixel) (r g b : ℕ) :
    compositePixel dst ⟨r, g, b, 0⟩ = dst := rfl

/-! ### Claim theorems -/

/-- C1: for every input text, font metric and maximum width, no line
returned by the word-wrap measures strictly wider than `max_width` except a
line that is a single input word; an over-wide word is placed alone as its
own line; no word is ever split or dropped (the words of the output lines
are exactly the words of the input, in order); and text whose full join
measures at most `max_width` — including exactly `max_width` — stays on a
single line, so only a strictly greater measured width (with a non-empty
current line) forces a wrap.  The font metric is assumed monotone under
extending a line with a space-joined word on either side, as pixel text
widths are. -/
theorem C1_wrap_width_bound (measure : String → Int) (text : String)
    (max_width : Int)
    (hmono : ∀ a b : String,
      measure a ≤ measure (a ++ " " ++ b) ∧
      measure b ≤ measure (a ++ " " ++ b)) :
    (∀ line ∈ wrap_text measure text max_width,
      max_width < measure line → line ∈ pySplit text)
    ∧ (∀ w ∈ pySplit text, max_width < measure w →
        w ∈ wrap_text measure text max_width)
    ∧ ((wrap_text measure text max_width).map pySplit).flatten = pySplit text
    ∧ (pySplit text ≠ [] → measure (joinSp (pySplit text)) ≤ max_width →
        wrap_text measure text max_width = [joinSp (pySplit text)]) := by
  have hmonoL : ∀ a b : String, measure a ≤ measure (a ++ " " ++ b) :=
    fun a b => (hmono a b).1
  have hmonoR : ∀ a b : String, measure b ≤ measure (a ++ " " ++ b) :=
    fun a b => (hmono a b).2
  refine ⟨?_, ?_, ?_, ?_⟩
  · intro line hline hlt
    rcases wrapAux_bound measure max_width (pySplit text) [] (Or.inl rfl)
        line hline with h | ⟨u, hlu, hu⟩
    · exact absurd hlt (not_lt.mpr h)
    · rcases hu with hu | hu
      · rwa [hlu]
      · simp at hu
  · intro w hw hlt
    exact wrapAux_overwide measure max_width hmonoL hmonoR (pySplit text) []
      w hw hlt
  · exact wrapAux_words measure max_width (pySplit text) []
      (fun u hu => pySplit_good hu) (by simp)
  · intro hne hle
    unfold wrap_text
    cases hsplit : pySplit text with
    | nil => exact absurd hsplit hne
    | cons w ws =>
      rw [hsplit] at hle
      rw [wrapAux_cons, if_neg (by simp), List.nil_append,
        wrapAux_single_line measure max_width hmonoL ws [w] (by simp)
          (by rw [List.singleton_append]; exact hle)]
      rfl

/-- Witness for C1: at the character-count metric, text "aa bb cc" and
width 5, the monotonicity hypothesis is discharged and the words-preserved
conjunct is instantiated. -/
theorem C1_wrap_width_bound_witness :
    ((wrap_text (fun s => (s.length : ℤ)) "aa bb cc" 5).map pySplit).flatten
      = pySplit "aa bb cc" :=
  (C1_wrap_width_bound (fun s => (s.length : ℤ)) "aa bb cc" 5
    (fun a b => by
      constructor <;> (simp [String.length_append]; omega))).2.2.1

/-- C7: word-wrap is idempotent on whitespace-normalized input: wrapping
the newline-joined output of the wrapper at the same width reproduces the
same sequence of lines as wrapping the original text. -/
theorem C7_wrap_idempotent (measure : String → Int) (text : String)
    (max_width : Int) (hnorm : wsNormalized text) :
    wrap_text measure (joinNl (wrap_text measure text max_width)) max_width
      = wrap_text measure text max_width := by
  unfold wrap_text
  rw [pySplit_joinNl,
    wrapAux_words measure max_width (pySplit text) []
      (fun u hu => pySplit_good hu) (by simp),
    List.nil_append]

/-- Witness for C7 at the character-count metric on the normalized text
"aa bb cc" with width 5. -/
theorem C7_wrap_idempotent_witness :
    wrap_text (fun s => (s.length : ℤ))
        (joinNl (wrap_text (fun s => (s.length : ℤ)) "aa bb cc" 5)) 5
      = wrap_text (fun s => (s.length : ℤ)) "aa bb cc" 5 :=
  C7_wrap_idempotent (fun s => (s.length : ℤ)) "aa bb cc" 5
    (by unfold wsNormalized; decide)

/-- C3: generation replaces every occurrence of the placeholder '#' in the
title template by the decimal representation of the sequence number (the
characterization below maps each character, replacing exactly the '#'
occurrences); a template with no placeholder is returned unchanged for every
number; and the spec scenario "Week # Overview" with numbers 1..3 yields
"Week 1 Overview", "Week 2 Overview", "Week 3 Overview". -/
theorem C3_placeholder_substitution :
    (∀ (template : String) (n : ℕ),
      substitute template n
        = ⟨(template.toList.map fun c =>
            if c = '#' then (toString n).toList else [c]).flatten⟩
      ∧ ('#' ∉ template.toList → substitute template n = template))
    ∧ substitute "Week # Overview" 1 = "Week 1 Overview"
    ∧ substitute "Week # Overview" 2 = "Week 2 Overview"
    ∧ substitute "Week # Overview" 3 = "Week 3 Overview" := by
  have hflat : ∀ (rep l : List Char),
      replaceHash rep l
        = (l.map fun c => if c = '#' then rep else [c]).flatten := by
    intro rep l
    induction l with
    | nil => rfl
    | cons c cs ih => simp [replaceHash, ih]
  refine ⟨fun template n => ⟨?_, ?_⟩, by decide, by decide, by decide⟩
  · unfold substitute
    rw [hflat]
  · intro hnone
    unfold substitute
    have hid : ∀ l : List Char, '#' ∉ l →
        replaceHash (toString n).toList l = l := by
      intro l
      induction l with
      | nil => exact fun _ => rfl
      | cons c cs ih =>
        intro h
        have hc : ¬(c = '#') := fun e => h (e ▸ List.mem_cons_self c cs)
        have ih' := ih (fun hm => h (List.mem_cons_of_mem c hm))
        simp only [replaceHash, if_neg hc, List.singleton_append, ih']
    rw [hid template.toList hnone, mk_toList]

/-- Witness for C3: the no-placeholder conjunct instantiated at template
"Title" and number 5. -/
theorem C3_placeholder_substitution_witness :
    substitute "Title" 5 = "Title" :=
  (C3_placeholder_substitution.1 "Title" 5).2 (by decide)

/-- C4: the output filename is "{course} - {title}_Thumbnail.png" when the
course name is present (non-empty after the stripping the code applies to
the field) and "{title}_Thumbnail.png" when it is empty, where the title is
the placeholder-substituted template; the two spec scenarios are
instantiated with the source's default configuration. -/
theorem C4_output_filename :
    (∀ (ops : RasterOps) (cfg : Config) (n width height : ℕ),
      save_filename (generate_thumbnail ops cfg n width height).2
        = if pyStrip cfg.course_input = ""
          then substitute cfg.title_template n ++ "_Thumbnail.png"
          else pyStrip cfg.course_input ++ " - "
            ++ substitute cfg.title_template n ++ "_Thumbnail.png")
    ∧ save_filename
        (generate_thumbnail sampleOps
          { sampleConfig with course_input := "CS 101" } 1 1280 720).2
      = "CS 101 - Week 1 Overview_Thumbnail.png"
    ∧ save_filename (generate_thumbnail sampleOps sampleConfig 1 1280 720).2
      = "Week 1 Overview_Thumbnail.png" := by
  refine ⟨?_, by decide, by decide⟩
  intro ops cfg n width height
  show filename_title (pyStrip cfg.course_input)
      (substitute cfg.title_template n) ++ "_Thumbnail.png" = _
  unfold filename_title
  by_cases hc : pyStrip cfg.course_input = "" <;> simp [hc]

/-- C10: for a fixed remaining state, two renders that differ only in the
course-name field produce the identical canvas: the course name reaches
only the returned filename title, never a pixel. -/
theorem C10_course_name_noninterference (ops : RasterOps) (cfg : Config)
    (n width height : ℕ) (course1 course2 : String) :
    (generate_thumbnail ops { cfg with course_input := course1 }
        n width height).1
      = (generate_thumbnail ops { cfg with course_input := course2 }
        n width height).1 := rfl

/-- C5: applying the overlay at opacity 0 is pixel-identical to selecting no
overlay: with the opacity below 100 the pattern's alpha channel is scaled by
0/100 to zero everywhere, and "over" compositing with a zero-alpha source
leaves every pixel of the base canvas unchanged — stated both for the
overlay step on an arbitrary canvas and end-to-end for the generator. -/
theorem C5_zero_opacity_overlay (ops : RasterOps) (cfg : Config)
    (n width height : ℕ) (pat : Canvas) :
    (∀ img : Canvas,
      apply_overlay ops
        { cfg with current_pattern := some pat, pattern_opacity := 0 }
        width height img = img)
    ∧ (generate_thumbnail ops
        { cfg with current_pattern := some pat, pattern_opacity := 0 }
        n width height).1
      = (generate_thumbnail ops { cfg with current_pattern := none }
        n width height).1 := by
  have hov : ∀ img : Canvas,
      apply_overlay ops
        { cfg with current_pattern := some pat, pattern_opacity := 0 }
        width height img = img := by
    intro img
    funext x y
    show compositePixel (img x y)
        (scaleAlphaPixel 0 (ops.resize pat width height x y)) = img x y
    simp [scaleAlphaPixel, compositePixel]
  refine ⟨hov, ?_⟩
  calc (generate_thumbnail ops
          { cfg with current_pattern := some pat, pattern_opacity := 0 }
          n width height).1
      = draw_title ops
          { cfg with current_pattern := some pat, pattern_opacity := 0 }
          (substitute cfg.title_template n) width height
          (apply_overlay ops
            { cfg with current_pattern := some pat, pattern_opacity := 0 }
            width height
            (build_base ops
              { cfg with current_pattern := some pat, pattern_opacity := 0 }
              width height)) := rfl
    _ = draw_title ops
          { cfg with current_pattern := some pat, pattern_opacity := 0 }
          (substitute cfg.title_template n) width height
          (build_base ops
            { cfg with current_pattern := some pat, pattern_opacity := 0 }
            width height) := by rw [hov]
    _ = (generate_thumbnail ops { cfg with current_pattern := none }
          n width height).1 := rfl

/-- C6: every placed line starts at (width - measured) // 2, computed
independently per line from its own measured width, and the line is
horizontally centered within one pixel: the left gap and the right gap
around the line differ by at most 1, i.e. the span from x to x + measured
is symmetric about width / 2 within one pixel. -/
theorem C6_horizontal_centering (measure : String → Int)
    (width height : ℤ) (font_size : ℕ) (ratio : ℚ) (lines : List String)
    (l : String) (x y : ℤ)
    (hmem : (l, x, y) ∈ layout measure width height font_size ratio lines) :
    x = x_position width (measure l)
    ∧ x = Int.fdiv (width - measure l) 2
    ∧ |x - (width - (x + measure l))| ≤ 1 := by
  unfold layout at hmem
  have hx : x = x_position width (measure l) :=
    mem_drawLines measure width font_size ratio lines _ l x y hmem
  subst hx
  refine ⟨rfl, rfl, ?_⟩
  unfold x_position
  rw [Int.fdiv_eq_ediv _ (by norm_num), abs_le]
  omega

/-- Witness for C6: a one-line layout on a 10-wide canvas with a 3-wide
line, placed at x = 3, instantiating the per-line centering formula. -/
theorem C6_horizontal_centering_witness :
    (3 : ℤ) = x_position 10 3 := by
  have hls : line_spacing 2 0 = 0 := by
    unfold line_spacing pyInt
    norm_num
  have hmem : (("abc" : String), (3 : ℤ), (9 : ℤ))
      ∈ layout (fun s => (s.length : ℤ)) 10 20 2 0 ["abc"] := by
    unfold layout y_start text_height
    rw [hls]
    decide
  exact (C6_horizontal_centering (fun s => (s.length : ℤ)) 10 20 2 0 ["abc"]
    "abc" 3 9 hmem).1

/-- C2 as stated is false on the code: the source computes the line spacing
with Python int() (truncation), not round(); at font size 11 px and ratio
1/2 (both reachable from the UI sliders) the code's pitch is 11 + int(5.5)
= 16 while the claimed round-based pitch is 11 + round(5.5) = 17. -/
theorem C2_round_pitch_counterexample :
    pitch 11 (1 / 2) ≠ (11 : ℤ) + round ((11 : ℚ) * (1 / 2)) := by
  have h1 : pitch 11 (1 / 2) = 16 := by
    unfold pitch line_spacing pyInt
    norm_num
  have h2 : (11 : ℤ) + round ((11 : ℚ) * (1 / 2)) = 17 := by
    rw [round_eq]
    norm_num
  rw [h1, h2]
  decide

/-- C2 amended: the per-line vertical pitch is font_size plus
int(font_size * line_spacing_ratio) — Python int(), i.e. truncation toward
zero rather than the claimed rounding; the total block height is
pitch * number_of_lines minus the spacing after the last line; the vertical
start is (height - total) // 2 with integer floor division; and successive
lines stack downward by exactly one pitch: the i-th placed line sits at
y_start + i * pitch. -/
theorem C2_vertical_layout (measure : String → Int) (width height : ℤ)
    (font_size : ℕ) (ratio : ℚ) (lines : List String) :
    pitch font_size ratio
      = (font_size : ℤ) + pyInt ((font_size : ℚ) * ratio)
    ∧ text_height lines.length font_size ratio
      = pitch font_size ratio * lines.length - line_spacing font_size ratio
    ∧ y_start height lines.length font_size ratio
      = Int.fdiv (height - text_height lines.length font_size ratio) 2
    ∧ ∀ (i : ℕ) (l : String) (x y : ℤ),
        (layout measure width height font_size ratio lines)[i]?
          = some (l, x, y) →
        y = y_start height lines.length font_size ratio
          + (i : ℤ) * pitch font_size ratio := by
  refine ⟨rfl, by unfold text_height pitch; ring, rfl, ?_⟩
  intro i l x y h
  exact (drawLines_getElem measure width font_size ratio lines _ i l x y h).1

/-- Witness for C2: a two-line layout with font size 2 and ratio 0 places
its second line (index 1) at y_start + 1 * pitch = 10. -/
theorem C2_vertical_layout_witness :
    (10 : ℤ) = y_start 20 2 2 0 + 1 * pitch 2 0 := by
  have hls : line_spacing 2 0 = 0 := by
    unfold line_spacing pyInt
    norm_num
  have hp : pitch 2 0 = 2 := by
    unfold pitch
    rw [hls]
    decide
  have hget : (layout (fun s => (s.length : ℤ)) 10 20 2 0 ["a", "b"])[1]?
      = some ("b", 4, 10) := by
    unfold layout y_start text_height
    rw [hls]
    simp only [drawLines, hp]
    decide
  exact (C2_vertical_layout (fun s => (s.length : ℤ)) 10 20 2 0
    ["a", "b"]).2.2.2 1 "b" 4 10 hget

/-- C8: the code violates the claim: with 10 thumbnails requested, all
writes succeeding, and the cancellation flag first true before iteration 3,
exactly 3 files are written and the progress values are 0, 1, 2 — but the
loop then still sets the progress bar to 10 and shows
"10 thumbnails saved successfully!", reporting the requested total instead
of the 3 actually written. -/
theorem C8_cancel_reports_total :
    save_thumbnails (fun i => decide (3 ≤ i)) (fun _ => true) 10
      = ⟨3, [0, 1, 2, 10], BatchOutcome.success 10⟩
    ∧ (3 : ℕ) ≠ 10 := by
  refine ⟨by decide, by decide⟩

/-- C9: font resolution is a total function (never raises, never aborts the
render), and on a fresh cache key the returned handle is the built-in
default font exactly when the resolved path cannot be rasterized — the
requested-font failure always falls back to the default, and the caller can
detect that a fallback occurred by inspecting the returned handle. -/
theorem C9_font_fallback (canLoad : String → ℕ → Bool)
    (custom_fonts : List (String × String))
    (pil_fonts : List (String × PilFont)) (font_name : String) (size : ℕ)
    (hfresh : pil_fonts.lookup (font_name ++ "_" ++ toString size) = none) :
    ((get_pil_font canLoad custom_fonts pil_fonts font_name size).1
        = PilFont.defaultFont
      ↔ canLoad (resolvedFontPath custom_fonts font_name) size = false) := by
  by_cases h : canLoad (resolvedFontPath custom_fonts font_name) size <;>
    simp [get_pil_font, hfresh, h]

/-- Witness for C9: with no custom fonts, an empty cache, and a loader that
always fails, resolving "Arial" at 12 px returns the default font. -/
theorem C9_font_fallback_witness :
    (get_pil_font (fun _ _ => false) [] [] "Arial" 12).1
      = PilFont.defaultFont :=
  (C9_font_fallback (fun _ _ => false) [] [] "Arial" 12 rfl).mpr rfl
